import Mathlib

/-!
Verification of the replay-based lifelong-learning trainer (src/main.py).

The embedding follows the source: the trainer loop of `train` (main.py lines
69-123) is modelled as a trace-producing interpreter over an abstract stream
of batches; the episodic memory of `baselines.replay.ReplayMemory` is not
under src/, so it is modelled from the spec (reservoir-sampling insertion,
uniform with-replacement sampling, hard capacity C); the evaluator
(`flat_accuracy`, `test`) is modelled as a pure accuracy computation over
rational logits.
-/

set_option maxRecDepth 200000

/-- An immutable training example: token ids, attention mask, class label
(the triple a data_loader batch carries per element, after squeeze(1)). -/
structure Example where
  content : List Nat
  attnMask : List Nat
  label : Nat
deriving DecidableEq, Repr

/-- A batch: the examples materialized together (three parallel arrays of
equal length in the source; here the list of their triples). -/
abbrev Batch := List Example

/-- Modelled from the spec: `baselines.replay.ReplayMemory` is not under
src/.  Per spec section 3 the episodic memory is a bounded multiset of
Examples of capacity C; `memory` mirrors the `memory.memory` list the trainer
reads at checkpoint time, `seen` is the running count N of examples ever
observed (for the reservoir insertion probability C/N). -/
structure ReplayMemory where
  memory : List Example
  capacity : Nat
  seen : Nat
deriving DecidableEq, Repr

/-- Modelled from the spec: one reservoir-sampling coin for an insertion
attempted after capacity is reached — either the new example replaces the
chosen slot (probability C/N in the spec; the oracle fixes the outcome), or
it is dropped. -/
inductive ResDecision where
  | keep (slot : Nat)
  | drop
deriving DecidableEq, Repr

/-- A fresh memory of capacity C (created once at run start). -/
def ReplayMemory.empty (C : Nat) : ReplayMemory :=
  { memory := [], capacity := C, seen := 0 }

/-- Modelled from the spec: reservoir insertion of a single example.  Before
capacity is reached insertion always succeeds (append); after, the oracle
decides whether the example replaces a uniformly-chosen existing slot or is
dropped.  The running count `seen` always advances. -/
def ReplayMemory.pushExample (m : ReplayMemory) (orc : Nat → ResDecision) (e : Example) :
    ReplayMemory :=
  if m.memory.length < m.capacity then
    { memory := m.memory ++ [e], capacity := m.capacity, seen := m.seen + 1 }
  else
    match orc m.seen with
    | ResDecision.keep slot =>
        { memory := m.memory.set (slot % m.capacity) e, capacity := m.capacity, seen := m.seen + 1 }
    | ResDecision.drop =>
        { memory := m.memory, capacity := m.capacity, seen := m.seen + 1 }

/-- Modelled from the spec: `memory.push(batch)` applies reservoir insertion
to each example of the batch in order. -/
def ReplayMemory.push (m : ReplayMemory) (orc : Nat → ResDecision) (b : Batch) : ReplayMemory :=
  b.foldl (fun acc e => acc.pushExample orc e) m

/-- Modelled from the spec: `memory.sample(sample_size)` draws exactly
`sampleSize` examples uniformly with replacement from current contents
(`pick i` chooses the i-th drawn slot), and fails on an empty memory. -/
def ReplayMemory.sample (m : ReplayMemory) (pick : Nat → Nat) (sampleSize : Nat) :
    Option (List Example) :=
  if h : m.memory.length = 0 then none
  else
    some ((List.range sampleSize).map fun i =>
      m.memory.get ⟨pick i % m.memory.length, Nat.mod_lt _ (Nat.pos_of_ne_zero h)⟩)

/-- A whole stream of push calls, as the trainer issues them (one per pulled
batch). -/
def pushStream (orc : Nat → ResDecision) (m : ReplayMemory) (bs : List Batch) : ReplayMemory :=
  bs.foldl (fun acc b => acc.push orc b) m

lemma pushExample_capacity (m : ReplayMemory) (orc : Nat → ResDecision) (e : Example) :
    (m.pushExample orc e).capacity = m.capacity := by
  unfold ReplayMemory.pushExample
  split
  · rfl
  · cases orc m.seen <;> rfl

lemma pushExample_seen (m : ReplayMemory) (orc : Nat → ResDecision) (e : Example) :
    (m.pushExample orc e).seen = m.seen + 1 := by
  unfold ReplayMemory.pushExample
  split
  · rfl
  · cases orc m.seen <;> rfl

lemma pushExample_length_min (m : ReplayMemory) (orc : Nat → ResDecision) (e : Example)
    (h : m.memory.length = min m.seen m.capacity) :
    (m.pushExample orc e).memory.length = min (m.seen + 1) m.capacity := by
  unfold ReplayMemory.pushExample
  split
  · next hlt =>
    simp only [List.length_append, List.length_cons, List.length_nil]
    omega
  · next hge =>
    cases orc m.seen <;> simp only [List.length_set] <;> omega

lemma push_min (orc : Nat → ResDecision) (b : Batch) :
    ∀ m : ReplayMemory, m.memory.length = min m.seen m.capacity →
      (m.push orc b).memory.length = min (m.push orc b).seen (m.push orc b).capacity ∧
      (m.push orc b).seen = m.seen + b.length ∧
      (m.push orc b).capacity = m.capacity := by
  induction b with
  | nil =>
    intro m h
    simpa [ReplayMemory.push] using h
  | cons e rest ih =>
    intro m h
    have h1 : (m.pushExample orc e).memory.length =
        min (m.pushExample orc e).seen (m.pushExample orc e).capacity := by
      rw [pushExample_seen, pushExample_capacity]
      exact pushExample_length_min m orc e h
    have hrec := ih (m.pushExample orc e) h1
    have hpush : m.push orc (e :: rest) = (m.pushExample orc e).push orc rest := rfl
    rw [hpush]
    refine ⟨hrec.1, ?_, ?_⟩
    · rw [hrec.2.1, pushExample_seen]
      simp [Nat.add_assoc, Nat.add_comm 1 rest.length]
    · rw [hrec.2.2, pushExample_capacity]

lemma pushStream_min (orc : Nat → ResDecision) (bs : List Batch) :
    ∀ m : ReplayMemory, m.memory.length = min m.seen m.capacity →
      (pushStream orc m bs).memory.length =
        min ((pushStream orc m bs).seen) ((pushStream orc m bs).capacity) ∧
      (pushStream orc m bs).seen = m.seen + (bs.map List.length).sum ∧
      (pushStream orc m bs).capacity = m.capacity := by
  induction bs with
  | nil =>
    intro m h
    simpa [pushStream] using h
  | cons b rest ih =>
    intro m h
    have hb := push_min orc b m h
    have hrec := ih (m.push orc b) hb.1
    have hps : pushStream orc m (b :: rest) = pushStream orc (m.push orc b) rest := rfl
    rw [hps]
    refine ⟨hrec.1, ?_, ?_⟩
    · rw [hrec.2.1, hb.2.1]
      simp [Nat.add_assoc]
    · rw [hrec.2.2, hb.2.2]

/-- 150 distinct single-example batches (the spec's capacity scenario). -/
def scenarioBatches150 : List Batch :=
  (List.range 150).map (fun i => [{ content := [i], attnMask := [1], label := 0 }])

/-- C7: for every sequence of pushes the number of stored examples never
exceeds the fixed capacity C, and pushing 150 distinct single-example batches
into a memory of capacity 100 leaves exactly 100 stored examples (for every
reservoir randomness oracle). -/
theorem claim_C7_capacity_invariant :
    (∀ (C : Nat) (orc : Nat → ResDecision) (bs : List Batch),
      (pushStream orc (ReplayMemory.empty C) bs).memory.length ≤ C) ∧
    (∀ orc : Nat → ResDecision,
      (pushStream orc (ReplayMemory.empty 100) scenarioBatches150).memory.length = 100) := by
  constructor
  · intro C orc bs
    have h0 : (ReplayMemory.empty C).memory.length =
        min (ReplayMemory.empty C).seen (ReplayMemory.empty C).capacity := by
      simp [ReplayMemory.empty]
    have h := pushStream_min orc bs (ReplayMemory.empty C) h0
    rw [h.1, h.2.2]
    exact Nat.min_le_right _ _
  · intro orc
    have h0 : (ReplayMemory.empty 100).memory.length =
        min (ReplayMemory.empty 100).seen (ReplayMemory.empty 100).capacity := by
      simp [ReplayMemory.empty]
    have h := pushStream_min orc scenarioBatches150 (ReplayMemory.empty 100) h0
    have hsum : (scenarioBatches150.map List.length).sum = 150 := by decide
    rw [h.1, h.2.2, h.2.1, hsum]
    simp [ReplayMemory.empty]

/-- Embeds np.argmax over one row of logits (main.py line 144): index of the
first maximum entry. -/
def argmaxAux : List Rat → Nat → Nat → Rat → Nat
  | [], _, best, _ => best
  | x :: rest, i, best, bv =>
      if bv < x then argmaxAux rest (i + 1) i x else argmaxAux rest (i + 1) best bv

/-- np.argmax of a logit row (0 on an empty row, as a total stand-in; the
evaluator only applies it to per-example logit rows). -/
def npArgmax : List Rat → Nat
  | [] => 0
  | x :: rest => argmaxAux rest 1 0 x

/-- Embeds flat_accuracy (main.py lines 140-146): per-row argmax of the
predictions, compared elementwise against the flat labels, count of matches
divided by the number of labels. -/
def flat_accuracy (preds : List (List Rat)) (labels : List Nat) : Rat :=
  let predFlat := preds.map npArgmax
  ((((predFlat.zip labels).countP (fun p => p.1 == p.2)) : Nat) : Rat) / ((labels.length : Nat) : Rat)

/-- Embeds the evaluation loop of test (main.py lines 163-188): for each
batch, infer logits from (content, attention mask), add that batch's
flat_accuracy into total_correct and bump t_steps; report
total_correct / t_steps. -/
def testRun (infer : List (List Nat) → List (List Nat) → List (List Rat))
    (stream : List Batch) : Rat :=
  let r := stream.foldl
    (fun (acc : Rat × Nat) b =>
      let logits := infer (b.map Example.content) (b.map Example.attnMask)
      (acc.1 + flat_accuracy logits (b.map Example.label), acc.2 + 1))
    ((0 : Rat), (0 : Nat))
  r.1 / ((r.2 : Nat) : Rat)

/-- The per-batch accuracy the evaluator attributes to one held-out batch. -/
def batchAccuracy (infer : List (List Nat) → List (List Nat) → List (List Rat))
    (b : Batch) : Rat :=
  flat_accuracy (infer (b.map Example.content) (b.map Example.attnMask)) (b.map Example.label)

lemma testRun_foldl (infer : List (List Nat) → List (List Nat) → List (List Rat))
    (stream : List Batch) :
    ∀ (a : Rat) (n : Nat),
      stream.foldl
        (fun (acc : Rat × Nat) b =>
          (acc.1 + flat_accuracy (infer (b.map Example.content) (b.map Example.attnMask))
            (b.map Example.label), acc.2 + 1))
        (a, n)
      = (a + (stream.map (batchAccuracy infer)).sum, n + stream.length) := by
  induction stream with
  | nil => intro a n; simp
  | cons b rest ih =>
    intro a n
    simp only [List.foldl_cons, List.map_cons, List.sum_cons, List.length_cons]
    rw [ih]
    simp only [Prod.mk.injEq]
    refine ⟨?_, by omega⟩
    simp [batchAccuracy]
    ring

/-- C5: the evaluator reports the unweighted arithmetic mean of the per-batch
accuracies count(argmax(prediction) == label) / batch_size over all batches
of the held-out stream. -/
theorem claim_C5_evaluator_mean
    (infer : List (List Nat) → List (List Nat) → List (List Rat))
    (stream : List Batch) (h : stream ≠ []) :
    testRun infer stream
      = (stream.map (batchAccuracy infer)).sum / ((stream.length : Nat) : Rat) := by
  unfold testRun
  rw [show (fun (acc : Rat × Nat) (b : Batch) =>
        ((acc.1 + flat_accuracy (infer (b.map Example.content) (b.map Example.attnMask))
          (b.map Example.label), acc.2 + 1) : Rat × Nat))
      = (fun (acc : Rat × Nat) b =>
        (acc.1 + flat_accuracy (infer (b.map Example.content) (b.map Example.attnMask))
          (b.map Example.label), acc.2 + 1)) from rfl]
  rw [testRun_foldl infer stream 0 0]
  simp

/-- C5 witness data: a 4-batch held-out stream with known labels. -/
def evalBatch (labs : List Nat) : Batch :=
  labs.map (fun l => { content := [l], attnMask := [1], label := l })

/-- C5 witness data: the 4 held-out batches of the spec scenario. -/
def wEvalStream : List Batch :=
  [evalBatch [0, 0], evalBatch [0, 1], evalBatch [1, 1], evalBatch [0, 1]]

/-- C5 witness data: a concrete inference operation — predicts class 0 when
the first token is 0, class 1 otherwise. -/
def wInfer (contents : List (List Nat)) (_masks : List (List Nat)) : List (List Rat) :=
  contents.map (fun c => if c.headD 0 == 0 then [1, 0] else [0, 1])

/-- Witness for C5: apply the theorem to the concrete 4-batch stream. -/
theorem claim_C5_evaluator_mean_witness :
    wEvalStream ≠ [] ∧
    testRun wInfer wEvalStream
      = (wEvalStream.map (batchAccuracy wInfer)).sum / ((wEvalStream.length : Nat) : Rat) :=
  ⟨by decide, claim_C5_evaluator_mean wInfer wEvalStream (by decide)⟩

/-- The names bound at module scope of main.py (imports, module globals and
the four function definitions), plus model_state, the only name the
mode == test branch binds before evaluating the expression at line 218. -/
def moduleScopeNames : List String :=
  ["torch", "data", "DataSet", "argparse", "ReplayMemory", "ReplayModel",
   "transformers", "trange", "tqdm", "time", "copy", "plt", "np", "os",
   "use_cuda", "parser", "args", "LEARNING_RATE", "MODEL_NAME", "REPLAY_FREQ",
   "train", "save_checkpoint", "flat_accuracy", "test", "save_trainloss",
   "model_state"]

/-- Outcome of the mode == test branch of the entry point. -/
inductive MainTestOutcome where
  | nameError (name : String)
  | evaluated (acc : Rat)
deriving Repr

/-- Embeds the mode == test branch (main.py lines 215-219): torch.load is an
external I/O call (assumed to return a model state); the expression
EncDec(mode=..., model_state=...) first resolves the name EncDec against the
bound names; only if that succeeds is the model built and test invoked. -/
def mainTestBranch (infer : List (List Nat) → List (List Nat) → List (List Rat))
    (stream : List Batch) : MainTestOutcome :=
  if moduleScopeNames.contains "EncDec" then
    MainTestOutcome.evaluated (testRun infer stream)
  else
    MainTestOutcome.nameError "EncDec"

/-- C10: every run invoked with mode test fails with an undefined-name error
on EncDec before any evaluation occurs — EncDec is bound nowhere in the
program, so the branch never reaches test. -/
theorem claim_C10_encdec_name_error
    (infer : List (List Nat) → List (List Nat) → List (List Rat))
    (stream : List Batch) :
    mainTestBranch infer stream = MainTestOutcome.nameError "EncDec" := by
  have h : moduleScopeNames.contains "EncDec" = false := by decide
  unfold mainTestBranch
  rw [h]
  simp

/-- Replay frequency (main.py line 34). -/
def REPLAY_FREQ : Nat := 180

/-- Replay sample size: memory.sample(sample_size=64) at main.py line 89. -/
def replaySampleSize : Nat := 64

/-- One observable action of the training loop, in program order: pushing the
pulled batch into memory (line 85), drawing a replay batch (line 89, the
memory contents at that moment recorded alongside the draw), clearing
gradients (line 103), requesting the loss for the training batch (line 105),
backpropagating (line 108), applying the optimizer step (line 110), and
persisting a checkpoint at epoch end (line 121). -/
inductive Event where
  | push (b : Batch)
  | sampleMem (memContents : List Example) (result : Batch)
  | zeroGrad
  | classify (b : Batch)
  | backward
  | optStep
  | checkpoint (order : Nat) (epoch : Nat) (memSnapshot : Option (List Example))
deriving DecidableEq, Repr

/-- The per-epoch tracking variables of train (main.py lines 75-76). -/
structure EpochStats where
  trLoss : Rat
  nbTrExamples : Nat
  nbTrSteps : Nat
deriving DecidableEq, Repr

/-- The abstract collaborators of the trainer: the reservoir randomness, the
sampling randomness (per step, per draw), and the classifier model's loss. -/
structure TrainConfig where
  orc : Nat → ResDecision
  pick : Nat → Nat → Nat
  lossOf : Batch → Rat

/-- The trainer's only failure: memory.sample on an empty memory. -/
inductive TrainError where
  | emptyMemory
deriving DecidableEq, Repr

/-- Embeds the train-vs-replay decision (main.py lines 87-95) for step
`step` (0-based; the source tests (step+1) % REPLAY_FREQ == 0): on a replay
step the training batch is drawn from memory (already containing the pushed
live batch), otherwise it is the live batch itself (the squeeze(1) calls are
identity on this representation). -/
def selectBatch (cfg : TrainConfig) (step : Nat) (batch : Batch) (m1 : ReplayMemory) :
    Except TrainError (Batch × List Event) :=
  if (step + 1) % REPLAY_FREQ == 0 then
    match m1.sample (cfg.pick step) replaySampleSize with
    | none => Except.error TrainError.emptyMemory
    | some tb => Except.ok (tb, [Event.push batch, Event.sampleMem m1.memory tb])
  else
    Except.ok (batch, [Event.push batch])

/-- Embeds one iteration of the train loop body (main.py lines 78-115):
push the pulled batch into memory, decide live vs replay, then zero_grad,
classify, backward, optimizer step, and update the tracking variables
(tr_loss, nb_tr_examples, nb_tr_steps) and train_loss_set. -/
def trainStep (cfg : TrainConfig) (step : Nat) (batch : Batch) (m : ReplayMemory)
    (s : EpochStats) (tls : List Rat) :
    Except TrainError (ReplayMemory × EpochStats × List Rat × List Event) :=
  match selectBatch cfg step batch (m.push cfg.orc batch) with
  | Except.error e => Except.error e
  | Except.ok (tb, evs) =>
      Except.ok (m.push cfg.orc batch,
        { trLoss := s.trLoss + cfg.lossOf tb,
          nbTrExamples := s.nbTrExamples + tb.length,
          nbTrSteps := s.nbTrSteps + 1 },
        tls ++ [cfg.lossOf tb],
        evs ++ [Event.zeroGrad, Event.classify tb, Event.backward, Event.optStep])

/-- Embeds the inner loop of train (main.py line 78): iterate the stream
from step index `step`, threading memory, tracking variables and
train_loss_set, and concatenating each step's events. -/
def runEpochAux (cfg : TrainConfig) :
    Nat → List Batch → ReplayMemory → EpochStats → List Rat →
    Except TrainError (ReplayMemory × EpochStats × List Rat × List Event)
  | _, [], m, s, tls => Except.ok (m, s, tls, [])
  | step, b :: rest, m, s, tls =>
      match trainStep cfg step b m s tls with
      | Except.error e => Except.error e
      | Except.ok (m1, s1, tls1, evs1) =>
          match runEpochAux cfg (step + 1) rest m1 s1 tls1 with
          | Except.error e => Except.error e
          | Except.ok (m2, s2, tls2, evs2) => Except.ok (m2, s2, tls2, evs1 ++ evs2)

/-- Embeds one epoch of train (main.py lines 69-121): reset the tracking
variables, run the inner loop over the whole stream, then snapshot the model
and call save_checkpoint(model_dict, order, epoch+1, memory=memory.memory). -/
def runEpoch (cfg : TrainConfig) (order epoch : Nat) (bs : List Batch)
    (m : ReplayMemory) (tls : List Rat) :
    Except TrainError (ReplayMemory × List Rat × List Event) :=
  match runEpochAux cfg 0 bs m { trLoss := 0, nbTrExamples := 0, nbTrSteps := 0 } tls with
  | Except.error e => Except.error e
  | Except.ok (m1, _s1, tls1, evs) =>
      Except.ok (m1, tls1,
        evs ++ [Event.checkpoint order (epoch + 1) (some m1.memory)])

/-- A Python error class that the embedding distinguishes. -/
inductive PyError where
  | typeError
deriving DecidableEq, Repr

/-- A Python function signature: required positional parameters (no default)
and parameters with defaults. -/
structure PySignature where
  numRequired : Nat
  numOptional : Nat
deriving DecidableEq, Repr

/-- save_trainloss(train_loss_set, order, base_loc='../loss_images/') at
main.py line 191: two required parameters, one with a default. -/
def save_trainloss_signature : PySignature :=
  { numRequired := 2, numOptional := 1 }

/-- Calling a Python function with `numArgs` positional arguments: a
TypeError when a required parameter is left unbound (or too many are
given). -/
def callPositional (sig : PySignature) (numArgs : Nat) : Except PyError Unit :=
  if numArgs < sig.numRequired then Except.error PyError.typeError
  else if sig.numRequired + sig.numOptional < numArgs then Except.error PyError.typeError
  else Except.ok ()

/-- Embeds the epoch loop of train (main.py line 69, trange(args.epochs)):
run each epoch over the same stream, keeping memory and train_loss_set
across epochs; returns the per-epoch event blocks. -/
def trainEpochsAux (cfg : TrainConfig) (order : Nat) (bs : List Batch) :
    Nat → Nat → ReplayMemory → List Rat →
    Except TrainError (ReplayMemory × List Rat × List (List Event))
  | _, 0, m, tls => Except.ok (m, tls, [])
  | epoch, n + 1, m, tls =>
      match runEpoch cfg order epoch bs m tls with
      | Except.error e => Except.error e
      | Except.ok (m1, tls1, evs) =>
          match trainEpochsAux cfg order bs (epoch + 1) n m1 tls1 with
          | Except.error e => Except.error e
          | Except.ok (m2, tls2, blocks) => Except.ok (m2, tls2, evs :: blocks)

/-- Embeds train (main.py lines 37-123): run all epochs, then the final
statement save_trainloss(train_loss_set) — a call passing exactly one
positional argument to save_trainloss. -/
def train (cfg : TrainConfig) (order epochs : Nat) (bs : List Batch)
    (m0 : ReplayMemory) :
    Except TrainError (List (List Event) × Except PyError Unit) :=
  match trainEpochsAux cfg order bs 0 epochs m0 [] with
  | Except.error e => Except.error e
  | Except.ok (_, _tls, blocks) => Except.ok (blocks, callPositional save_trainloss_signature 1)

/-- Embeds the file naming of save_checkpoint (main.py lines 126-137):
parameters go to classifier_order_{order}_epoch_{epoch}.pth, and the memory
snapshot, when provided, to a separate epoch_{epoch} file. -/
def save_checkpoint (order epoch : Nat) (withMemory : Bool) : String × Option String :=
  ("classifier_order_" ++ toString order ++ "_epoch_" ++ toString epoch ++ ".pth",
   if withMemory then some ("epoch_" ++ toString epoch) else none)

/-- Recognizes a replay draw in a trace. -/
def Event.isSampleMem : Event → Bool
  | Event.sampleMem _ _ => true
  | _ => false

/-- Recognizes a loss request in a trace. -/
def Event.isClassify : Event → Bool
  | Event.classify _ => true
  | _ => false

/-- Recognizes an optimizer update in a trace. -/
def Event.isOptStep : Event → Bool
  | Event.optStep => true
  | _ => false

/-- Recognizes a checkpoint write in a trace. -/
def Event.isCheckpoint : Event → Bool
  | Event.checkpoint _ _ _ => true
  | _ => false

/-- The batch a push event inserted, if any. -/
def Event.pushedBatch : Event → Option Batch
  | Event.push b => some b
  | _ => none

/-- Number of replay draws in a trace. -/
def countSampleEvents (evs : List Event) : Nat := evs.countP Event.isSampleMem

/-- Number of loss requests in a trace. -/
def countClassifyEvents (evs : List Event) : Nat := evs.countP Event.isClassify

/-- Number of optimizer updates in a trace. -/
def countOptStepEvents (evs : List Event) : Nat := evs.countP Event.isOptStep

/-- Number of checkpoint writes in a trace. -/
def countCheckpointEvents (evs : List Event) : Nat := evs.countP Event.isCheckpoint

/-- Checks that a trace is a sequence of per-step blocks, each of which is:
a push of the live batch, optionally a replay draw, then zero_grad, a loss
request for exactly the chosen training batch, backward, and one optimizer
step — in that order. -/
def stepBlocksOK : List Event → Bool
  | [] => true
  | Event.push _ :: Event.sampleMem _ tb :: Event.zeroGrad :: Event.classify b2 ::
      Event.backward :: Event.optStep :: rest =>
      decide (tb = b2) && stepBlocksOK rest
  | Event.push b :: Event.zeroGrad :: Event.classify b2 ::
      Event.backward :: Event.optStep :: rest =>
      decide (b = b2) && stepBlocksOK rest
  | _ => false

/-- Checks that every replay draw in a trace is immediately preceded by the
push of that step's live batch. -/
def sampleAfterPushOK : List Event → Bool
  | [] => true
  | Event.sampleMem _ _ :: _ => false
  | Event.push _ :: Event.sampleMem _ _ :: rest => sampleAfterPushOK rest
  | _ :: rest => sampleAfterPushOK rest

/-- Checks that at every replay draw the memory contents sampled from still
contain every example of the live batch pushed just before. -/
def coverageOK : List Event → Bool
  | Event.push b :: Event.sampleMem mem r :: rest =>
      b.all (fun e => decide (e ∈ mem)) && coverageOK (Event.sampleMem mem r :: rest)
  | _ :: rest => coverageOK rest
  | [] => true

lemma sample_length (m : ReplayMemory) (pick : Nat → Nat) (k : Nat) (tb : List Example)
    (h : m.sample pick k = some tb) : tb.length = k := by
  unfold ReplayMemory.sample at h
  split at h
  · cases h
  · simp only [Option.some.injEq] at h
    rw [← h]
    simp

lemma sample_of_ne_nil (m : ReplayMemory) (pick : Nat → Nat) (k : Nat)
    (h : m.memory ≠ []) : ∃ tb, m.sample pick k = some tb := by
  unfold ReplayMemory.sample
  split
  · next h0 => exact absurd (List.length_eq_zero.mp h0) h
  · exact ⟨_, rfl⟩

lemma pushExample_length_pos (m : ReplayMemory) (orc : Nat → ResDecision) (e : Example)
    (hC : 1 ≤ m.capacity) : 0 < (m.pushExample orc e).memory.length := by
  unfold ReplayMemory.pushExample
  split
  · next hlt => simp
  · next hge =>
    cases orc m.seen <;> simp only [List.length_set] <;> omega

lemma push_length_pos (orc : Nat → ResDecision) (b : Batch) :
    ∀ m : ReplayMemory, 1 ≤ m.capacity →
      (0 < m.memory.length ∨ b ≠ []) → 0 < (m.push orc b).memory.length := by
  induction b with
  | nil =>
    intro m hC h
    rcases h with h | h
    · simpa [ReplayMemory.push] using h
    · exact absurd rfl h
  | cons e rest ih =>
    intro m hC _h
    have hstep : m.push orc (e :: rest) = (m.pushExample orc e).push orc rest := rfl
    rw [hstep]
    refine ih (m.pushExample orc e) ?_ (Or.inl ?_)
    · rw [pushExample_capacity]; exact hC
    · exact pushExample_length_pos m orc e hC

lemma push_ne_nil (orc : Nat → ResDecision) (b : Batch) (m : ReplayMemory)
    (hC : 1 ≤ m.capacity) (hb : b ≠ []) : (m.push orc b).memory ≠ [] := by
  have h := push_length_pos orc b m hC (Or.inr hb)
  intro hnil
  rw [hnil] at h
  simp at h

/-- Number of replay-triggering step indices among `n` consecutive steps
starting at 0-based step `step` (the source triggers when the 1-based index
is divisible by REPLAY_FREQ). -/
def replayCountFrom : Nat → Nat → Nat
  | _, 0 => 0
  | step, n + 1 =>
      (if (step + 1) % REPLAY_FREQ == 0 then 1 else 0) + replayCountFrom (step + 1) n

/-- Number of examples the tracking variable nb_tr_examples accumulates over
a stream slice starting at 0-based step `step`: the replay sample size on
replay steps, the live batch size otherwise. -/
def liveReplayExamples : Nat → List Batch → Nat
  | _, [] => 0
  | step, b :: rest =>
      (if (step + 1) % REPLAY_FREQ == 0 then replaySampleSize else b.length) +
        liveReplayExamples (step + 1) rest

lemma selectBatch_ok_inv (cfg : TrainConfig) (step : Nat) (batch : Batch)
    (m1 : ReplayMemory) (tb : Batch) (evs : List Event)
    (h : selectBatch cfg step batch m1 = Except.ok (tb, evs)) :
    (((step + 1) % REPLAY_FREQ == 0) = true ∧
      m1.sample (cfg.pick step) replaySampleSize = some tb ∧
      evs = [Event.push batch, Event.sampleMem m1.memory tb]) ∨
    (((step + 1) % REPLAY_FREQ == 0) = false ∧ tb = batch ∧ evs = [Event.push batch]) := by
  unfold selectBatch at h
  by_cases hr : ((step + 1) % REPLAY_FREQ == 0) = true
  · rw [if_pos hr] at h
    cases hs : m1.sample (cfg.pick step) replaySampleSize with
    | none => rw [hs] at h; cases h
    | some tb' =>
      rw [hs] at h
      simp only [Except.ok.injEq, Prod.mk.injEq] at h
      obtain ⟨h1, h2⟩ := h
      subst h1
      subst h2
      exact Or.inl ⟨hr, rfl, rfl⟩
  · rw [if_neg hr] at h
    simp only [Except.ok.injEq, Prod.mk.injEq] at h
    obtain ⟨h1, h2⟩ := h
    subst h1
    subst h2
    exact Or.inr ⟨Bool.of_not_eq_true hr, rfl, rfl⟩

lemma trainStep_ok_inv (cfg : TrainConfig) (step : Nat) (batch : Batch)
    (m : ReplayMemory) (s : EpochStats) (tls : List Rat)
    (m1 : ReplayMemory) (s1 : EpochStats) (tls1 : List Rat) (evs1 : List Event)
    (h : trainStep cfg step batch m s tls = Except.ok (m1, s1, tls1, evs1)) :
    m1 = m.push cfg.orc batch ∧
    ∃ tb : Batch,
      s1 = { trLoss := s.trLoss + cfg.lossOf tb,
             nbTrExamples := s.nbTrExamples + tb.length,
             nbTrSteps := s.nbTrSteps + 1 } ∧
      tls1 = tls ++ [cfg.lossOf tb] ∧
      ((((step + 1) % REPLAY_FREQ == 0) = true ∧ tb.length = replaySampleSize ∧
        evs1 = [Event.push batch, Event.sampleMem (m.push cfg.orc batch).memory tb,
                Event.zeroGrad, Event.classify tb, Event.backward, Event.optStep]) ∨
       (((step + 1) % REPLAY_FREQ == 0) = false ∧ tb = batch ∧
        evs1 = [Event.push batch, Event.zeroGrad, Event.classify tb,
                Event.backward, Event.optStep])) := by
  unfold trainStep at h
  cases hsel : selectBatch cfg step batch (m.push cfg.orc batch) with
  | error e => rw [hsel] at h; cases h
  | ok val =>
    obtain ⟨tb, evs⟩ := val
    rw [hsel] at h
    simp only [Except.ok.injEq, Prod.mk.injEq] at h
    obtain ⟨hm, hsv, htlsv, hevsv⟩ := h
    refine ⟨hm.symm, tb, hsv.symm, htlsv.symm, ?_⟩
    rcases selectBatch_ok_inv cfg step batch (m.push cfg.orc batch) tb evs hsel with
      ⟨hr, hsamp, hevs⟩ | ⟨hr, htb, hevs⟩
    · refine Or.inl ⟨hr, sample_length _ _ _ _ hsamp, ?_⟩
      rw [← hevsv, hevs]
      rfl
    · refine Or.inr ⟨hr, htb, ?_⟩
      rw [← hevsv, hevs]
      rfl

lemma push_capacity (orc : Nat → ResDecision) (b : Batch) :
    ∀ m : ReplayMemory, (m.push orc b).capacity = m.capacity := by
  induction b with
  | nil => intro m; rfl
  | cons e rest ih =>
    intro m
    have hstep : m.push orc (e :: rest) = (m.pushExample orc e).push orc rest := rfl
    rw [hstep, ih, pushExample_capacity]

lemma runEpochAux_ok_inv (cfg : TrainConfig) (bs : List Batch) :
    ∀ (step : Nat) (m : ReplayMemory) (s : EpochStats) (tls : List Rat)
      (m' : ReplayMemory) (s' : EpochStats) (tls' : List Rat) (evs : List Event),
      runEpochAux cfg step bs m s tls = Except.ok (m', s', tls', evs) →
      countSampleEvents evs = replayCountFrom step bs.length ∧
      countClassifyEvents evs = bs.length ∧
      countOptStepEvents evs = bs.length ∧
      countCheckpointEvents evs = 0 ∧
      evs.filterMap Event.pushedBatch = bs ∧
      stepBlocksOK evs = true ∧
      sampleAfterPushOK evs = true ∧
      s'.nbTrSteps = s.nbTrSteps + bs.length ∧
      s'.nbTrExamples = s.nbTrExamples + liveReplayExamples step bs ∧
      m'.capacity = m.capacity := by
  induction bs with
  | nil =>
    intro step m s tls m' s' tls' evs h
    simp only [runEpochAux, Except.ok.injEq, Prod.mk.injEq] at h
    obtain ⟨hm, hs, htls, hevs⟩ := h
    subst hm; subst hs; subst htls; subst hevs
    simp [countSampleEvents, countClassifyEvents, countOptStepEvents,
      countCheckpointEvents, replayCountFrom, liveReplayExamples,
      stepBlocksOK, sampleAfterPushOK]
  | cons b rest ih =>
    intro step m s tls m' s' tls' evs h
    simp only [runEpochAux] at h
    cases h1 : trainStep cfg step b m s tls with
    | error e => rw [h1] at h; cases h
    | ok val1 =>
      obtain ⟨m1, s1, tls1, evs1⟩ := val1
      rw [h1] at h
      dsimp only at h
      cases h2 : runEpochAux cfg (step + 1) rest m1 s1 tls1 with
      | error e => rw [h2] at h; cases h
      | ok val2 =>
        obtain ⟨m2, s2, tls2, evs2⟩ := val2
        rw [h2] at h
        simp only [Except.ok.injEq, Prod.mk.injEq] at h
        obtain ⟨hm, hs, htls, hevs⟩ := h
        subst hm; subst hs; subst htls; subst hevs
        obtain ⟨IH1, IH2, IH3, IH4, IH5, IH6, IH7, IH8, IH9, IH10⟩ :=
          ih (step + 1) m1 s1 tls1 m2 s2 tls2 evs2 h2
        obtain ⟨hm1, tb, hs1, _htls1, hcase⟩ := trainStep_ok_inv cfg step b m s tls m1 s1 tls1 evs1 h1
        have hcap1 : m1.capacity = m.capacity := by
          rw [hm1]
          exact push_capacity cfg.orc b m
        rcases hcase with ⟨hr, htblen, hevs1⟩ | ⟨hr, htb, hevs1⟩
        · subst hevs1
          refine ⟨?_, ?_, ?_, ?_, ?_, ?_, ?_, ?_, ?_, ?_⟩
          · simp only [countSampleEvents, List.countP_append] at IH1 ⊢
            simp [Event.isSampleMem, List.countP_cons, replayCountFrom, hr, IH1]
            try omega
          · simp only [countClassifyEvents, List.countP_append] at IH2 ⊢
            simp [Event.isClassify, List.countP_cons, IH2]
            try omega
          · simp only [countOptStepEvents, List.countP_append] at IH3 ⊢
            simp [Event.isOptStep, List.countP_cons, IH3]
            try omega
          · simp only [countCheckpointEvents, List.countP_append] at IH4 ⊢
            simp [Event.isCheckpoint, List.countP_cons, IH4]
          · simp only [List.filterMap_append]
            rw [IH5]
            simp [Event.pushedBatch]
          · simp only [List.cons_append, List.nil_append, stepBlocksOK]
            simp [IH6]
          · simp only [List.cons_append, List.nil_append, sampleAfterPushOK]
            exact IH7
          · rw [IH8, hs1]
            simp
            try omega
          · rw [IH9, hs1]
            simp [liveReplayExamples, hr, htblen]
            try omega
          · rw [IH10, hcap1]
        · subst hevs1
          subst htb
          refine ⟨?_, ?_, ?_, ?_, ?_, ?_, ?_, ?_, ?_, ?_⟩
          · simp only [countSampleEvents, List.countP_append] at IH1 ⊢
            simp [Event.isSampleMem, List.countP_cons, replayCountFrom, hr, IH1]
            try omega
          · simp only [countClassifyEvents, List.countP_append] at IH2 ⊢
            simp [Event.isClassify, List.countP_cons, IH2]
            try omega
          · simp only [countOptStepEvents, List.countP_append] at IH3 ⊢
            simp [Event.isOptStep, List.countP_cons, IH3]
            try omega
          · simp only [countCheckpointEvents, List.countP_append] at IH4 ⊢
            simp [Event.isCheckpoint, List.countP_cons, IH4]
          · simp only [List.filterMap_append]
            rw [IH5]
            simp [Event.pushedBatch]
          · simp only [List.cons_append, List.nil_append, stepBlocksOK]
            simp [IH6]
          · simp only [List.cons_append, List.nil_append, sampleAfterPushOK]
            exact IH7
          · rw [IH8, hs1]
            simp
            try omega
          · rw [IH9, hs1]
            simp [liveReplayExamples, hr]
            try omega
          · rw [IH10, hcap1]

lemma replayCountFrom_div : ∀ (n s : Nat),
    replayCountFrom s n + s / REPLAY_FREQ = (s + n) / REPLAY_FREQ := by
  intro n
  induction n with
  | zero =>
    intro s
    simp [replayCountFrom]
  | succ k ih =>
    intro s
    have h1 := ih (s + 1)
    simp only [replayCountFrom, REPLAY_FREQ] at h1 ⊢
    by_cases hm : (s + 1) % 180 = 0
    · have hb : ((s + 1) % 180 == 0) = true := by simp [hm]
      simp only [hb, if_true]
      omega
    · have hb : ((s + 1) % 180 == 0) = false := by simp [hm]
      simp only [hb, Bool.false_eq_true, if_false]
      omega

lemma replayCountFrom_zero_div (M : Nat) :
    replayCountFrom 0 M = M / REPLAY_FREQ := by
  have h := replayCountFrom_div M 0
  simpa using h

lemma runEpochAux_ok_exists (cfg : TrainConfig) (bs : List Batch) :
    ∀ (step : Nat) (m : ReplayMemory) (s : EpochStats) (tls : List Rat),
      1 ≤ m.capacity → (∀ b ∈ bs, b ≠ []) →
      ∃ r, runEpochAux cfg step bs m s tls = Except.ok r := by
  induction bs with
  | nil =>
    intro step m s tls _ _
    exact ⟨(m, s, tls, []), rfl⟩
  | cons b rest ih =>
    intro step m s tls hC hb
    have hbne : b ≠ [] := hb b (by simp)
    have hmem : (m.push cfg.orc b).memory ≠ [] := push_ne_nil cfg.orc b m hC hbne
    have hts : ∃ v, trainStep cfg step b m s tls = Except.ok v := by
      unfold trainStep
      cases hsel : selectBatch cfg step b (m.push cfg.orc b) with
      | error e =>
        exfalso
        unfold selectBatch at hsel
        by_cases hr : ((step + 1) % REPLAY_FREQ == 0) = true
        · rw [if_pos hr] at hsel
          obtain ⟨tb, htb⟩ :=
            sample_of_ne_nil (m.push cfg.orc b) (cfg.pick step) replaySampleSize hmem
          rw [htb] at hsel
          cases hsel
        · rw [if_neg hr] at hsel
          cases hsel
      | ok v =>
        obtain ⟨tb, evs⟩ := v
        exact ⟨_, rfl⟩
    obtain ⟨⟨m1, s1, tls1, evs1⟩, hts⟩ := hts
    have hcap1 : 1 ≤ m1.capacity := by
      have hinv := trainStep_ok_inv cfg step b m s tls m1 s1 tls1 evs1 hts
      rw [hinv.1, push_capacity]
      exact hC
    obtain ⟨r2, hr2⟩ := ih (step + 1) m1 s1 tls1 hcap1 (fun b' hb' => hb b' (by simp [hb']))
    obtain ⟨m2, s2, tls2, evs2⟩ := r2
    refine ⟨(m2, s2, tls2, evs1 ++ evs2), ?_⟩
    simp only [runEpochAux]
    rw [hts]
    dsimp only
    rw [hr2]

lemma push_seen (orc : Nat → ResDecision) (b : Batch) :
    ∀ m : ReplayMemory, (m.push orc b).seen = m.seen + b.length := by
  induction b with
  | nil => intro m; simp [ReplayMemory.push]
  | cons e rest ih =>
    intro m
    have hstep : m.push orc (e :: rest) = (m.pushExample orc e).push orc rest := rfl
    rw [hstep, ih, pushExample_seen]
    simp only [List.length_cons]
    omega

lemma pushExample_append (m : ReplayMemory) (orc : Nat → ResDecision) (e : Example)
    (h : m.memory.length < m.capacity) :
    (m.pushExample orc e).memory = m.memory ++ [e] := by
  unfold ReplayMemory.pushExample
  rw [if_pos h]

lemma push_append (orc : Nat → ResDecision) (b : Batch) :
    ∀ m : ReplayMemory, m.memory.length ≤ m.seen → m.seen + b.length ≤ m.capacity →
      (m.push orc b).memory = m.memory ++ b := by
  induction b with
  | nil => intro m _ _; simp [ReplayMemory.push]
  | cons e rest ih =>
    intro m hlen hbound
    simp only [List.length_cons] at hbound
    have hlt : m.memory.length < m.capacity := by omega
    have hstep : m.push orc (e :: rest) = (m.pushExample orc e).push orc rest := rfl
    have h1 : (m.pushExample orc e).memory = m.memory ++ [e] := pushExample_append m orc e hlt
    have h2 : (m.pushExample orc e).memory.length ≤ (m.pushExample orc e).seen := by
      rw [h1, pushExample_seen]
      simp only [List.length_append, List.length_cons, List.length_nil]
      omega
    have h3 : (m.pushExample orc e).seen + rest.length ≤ (m.pushExample orc e).capacity := by
      rw [pushExample_seen, pushExample_capacity]
      omega
    rw [hstep, ih (m.pushExample orc e) h2 h3, h1]
    simp

lemma runEpochAux_coverage (cfg : TrainConfig) (bs : List Batch) :
    ∀ (step : Nat) (m : ReplayMemory) (s : EpochStats) (tls : List Rat)
      (m' : ReplayMemory) (s' : EpochStats) (tls' : List Rat) (evs : List Event),
      runEpochAux cfg step bs m s tls = Except.ok (m', s', tls', evs) →
      m.memory.length ≤ m.seen →
      m.seen + (bs.map List.length).sum ≤ m.capacity →
      coverageOK evs = true := by
  induction bs with
  | nil =>
    intro step m s tls m' s' tls' evs h _ _
    simp only [runEpochAux, Except.ok.injEq, Prod.mk.injEq] at h
    obtain ⟨_, _, _, hevs⟩ := h
    subst hevs
    rfl
  | cons b rest ih =>
    intro step m s tls m' s' tls' evs h hlen hbound
    simp only [runEpochAux] at h
    cases h1 : trainStep cfg step b m s tls with
    | error e => rw [h1] at h; cases h
    | ok val1 =>
      obtain ⟨m1, s1, tls1, evs1⟩ := val1
      rw [h1] at h
      dsimp only at h
      cases h2 : runEpochAux cfg (step + 1) rest m1 s1 tls1 with
      | error e => rw [h2] at h; cases h
      | ok val2 =>
        obtain ⟨m2, s2, tls2, evs2⟩ := val2
        rw [h2] at h
        simp only [Except.ok.injEq, Prod.mk.injEq] at h
        obtain ⟨_, _, _, hevs⟩ := h
        subst hevs
        obtain ⟨hm1, tb, _, _, hcase⟩ :=
          trainStep_ok_inv cfg step b m s tls m1 s1 tls1 evs1 h1
        have hsum : (List.map List.length (b :: rest)).sum
            = b.length + (List.map List.length rest).sum := by simp
        have hbsum : m.seen + b.length ≤ m.capacity := by
          rw [hsum] at hbound
          omega
        have happ : m1.memory = m.memory ++ b := by
          rw [hm1]
          exact push_append cfg.orc b m hlen hbsum
        have hseen1 : m1.seen = m.seen + b.length := by
          rw [hm1]
          exact push_seen cfg.orc b m
        have hcap1 : m1.capacity = m.capacity := by
          rw [hm1]
          exact push_capacity cfg.orc b m
        have hlen1 : m1.memory.length ≤ m1.seen := by
          rw [happ, hseen1]
          simp only [List.length_append]
          omega
        have hbound1 : m1.seen + (List.map List.length rest).sum ≤ m1.capacity := by
          rw [hseen1, hcap1]
          rw [hsum] at hbound
          omega
        have IH := ih (step + 1) m1 s1 tls1 m2 s2 tls2 evs2 h2 hlen1 hbound1
        have hall : b.all (fun e => decide (e ∈ m1.memory)) = true := by
          rw [List.all_eq_true]
          intro e he
          rw [happ]
          simp only [decide_eq_true_eq, List.mem_append]
          exact Or.inr he
        rcases hcase with ⟨hr, htblen, hevs1⟩ | ⟨hr, htb, hevs1⟩
        · subst hevs1
          rw [← hm1]
          simp only [List.cons_append, List.nil_append, coverageOK]
          simp [hall, IH]
        · subst hevs1
          simp only [List.cons_append, List.nil_append, coverageOK]
          simp [IH]

/-- Checks one epoch's event block: its last event is the checkpoint write
for (order, epoch+1) carrying a memory snapshot, and no checkpoint occurs
earlier in the block (so the write follows the epoch's final optimizer
step). -/
def epochBlockOK (order epoch : Nat) (blk : List Event) : Bool :=
  match blk.getLast? with
  | some (Event.checkpoint o e mem) =>
      (o == order) && (e == epoch + 1) && mem.isSome &&
        (blk.dropLast.countP Event.isCheckpoint == 0)
  | _ => false

/-- Checks a list of per-epoch blocks starting at epoch index `epoch`. -/
def blocksOKFrom (order : Nat) : Nat → List (List Event) → Bool
  | _, [] => true
  | epoch, blk :: rest => epochBlockOK order epoch blk && blocksOKFrom order (epoch + 1) rest

lemma runEpoch_ok_inv (cfg : TrainConfig) (order epoch : Nat) (bs : List Batch)
    (m : ReplayMemory) (tls : List Rat) (m' : ReplayMemory) (tls' : List Rat)
    (evs : List Event)
    (h : runEpoch cfg order epoch bs m tls = Except.ok (m', tls', evs)) :
    ∃ evsA sA,
      runEpochAux cfg 0 bs m { trLoss := 0, nbTrExamples := 0, nbTrSteps := 0 } tls
        = Except.ok (m', sA, tls', evsA) ∧
      evs = evsA ++ [Event.checkpoint order (epoch + 1) (some m'.memory)] := by
  unfold runEpoch at h
  cases hA : runEpochAux cfg 0 bs m { trLoss := 0, nbTrExamples := 0, nbTrSteps := 0 } tls with
  | error e => rw [hA] at h; cases h
  | ok val =>
    obtain ⟨mA, sA, tlsA, evsA⟩ := val
    rw [hA] at h
    simp only [Except.ok.injEq, Prod.mk.injEq] at h
    obtain ⟨hm, htls, hevs⟩ := h
    subst hm
    subst htls
    subst hevs
    exact ⟨evsA, sA, rfl, rfl⟩

lemma epochBlockOK_of_run (order epoch : Nat) (evsA : List Event) (mem : List Example)
    (hc : countCheckpointEvents evsA = 0) :
    epochBlockOK order epoch
      (evsA ++ [Event.checkpoint order (epoch + 1) (some mem)]) = true := by
  unfold epochBlockOK
  rw [List.getLast?_concat, List.dropLast_concat]
  simp only [countCheckpointEvents] at hc
  simp [hc]

lemma trainEpochsAux_ok_inv (cfg : TrainConfig) (order : Nat) (bs : List Batch) :
    ∀ (n epoch : Nat) (m : ReplayMemory) (tls : List Rat)
      (m' : ReplayMemory) (tls' : List Rat) (blocks : List (List Event)),
      trainEpochsAux cfg order bs epoch n m tls = Except.ok (m', tls', blocks) →
      blocks.length = n ∧ blocksOKFrom order epoch blocks = true ∧
        m'.capacity = m.capacity := by
  intro n
  induction n with
  | zero =>
    intro epoch m tls m' tls' blocks h
    simp only [trainEpochsAux, Except.ok.injEq, Prod.mk.injEq] at h
    obtain ⟨hm, htls, hblocks⟩ := h
    subst hm
    subst hblocks
    exact ⟨rfl, rfl, rfl⟩
  | succ k ih =>
    intro epoch m tls m' tls' blocks h
    simp only [trainEpochsAux] at h
    cases h1 : runEpoch cfg order epoch bs m tls with
    | error e => rw [h1] at h; cases h
    | ok val1 =>
      obtain ⟨m1, tls1, evs⟩ := val1
      rw [h1] at h
      dsimp only at h
      cases h2 : trainEpochsAux cfg order bs (epoch + 1) k m1 tls1 with
      | error e => rw [h2] at h; cases h
      | ok val2 =>
        obtain ⟨m2, tls2, blocks2⟩ := val2
        rw [h2] at h
        simp only [Except.ok.injEq, Prod.mk.injEq] at h
        obtain ⟨hm, htls, hblocks⟩ := h
        subst hm
        subst hblocks
        obtain ⟨IH1, IH2, IH3⟩ := ih (epoch + 1) m1 tls1 m2 tls2 blocks2 h2
        obtain ⟨evsA, sA, hAux, hevs⟩ := runEpoch_ok_inv cfg order epoch bs m tls m1 tls1 evs h1
        have hinv := runEpochAux_ok_inv cfg bs 0 m
          { trLoss := 0, nbTrExamples := 0, nbTrSteps := 0 } tls m1 sA tls1 evsA hAux
        refine ⟨by simp [IH1], ?_, by rw [IH3, hinv.2.2.2.2.2.2.2.2.2]⟩
        simp only [blocksOKFrom, Bool.and_eq_true]
        refine ⟨?_, IH2⟩
        rw [hevs]
        exact epochBlockOK_of_run order epoch evsA m1.memory hinv.2.2.2.1

lemma trainEpochsAux_ok_exists (cfg : TrainConfig) (order : Nat) (bs : List Batch)
    (hb : ∀ b ∈ bs, b ≠ []) :
    ∀ (n epoch : Nat) (m : ReplayMemory) (tls : List Rat), 1 ≤ m.capacity →
      ∃ r, trainEpochsAux cfg order bs epoch n m tls = Except.ok r := by
  intro n
  induction n with
  | zero =>
    intro epoch m tls _
    exact ⟨(m, tls, []), rfl⟩
  | succ k ih =>
    intro epoch m tls hC
    obtain ⟨⟨mA, sA, tlsA, evsA⟩, hA⟩ :=
      runEpochAux_ok_exists cfg bs 0 m { trLoss := 0, nbTrExamples := 0, nbTrSteps := 0 } tls hC hb
    have hep : runEpoch cfg order epoch bs m tls
        = Except.ok (mA, tlsA,
            evsA ++ [Event.checkpoint order (epoch + 1) (some mA.memory)]) := by
      unfold runEpoch
      rw [hA]
    have hcapA : 1 ≤ mA.capacity := by
      have hinv := runEpochAux_ok_inv cfg bs 0 m
        { trLoss := 0, nbTrExamples := 0, nbTrSteps := 0 } tls mA sA tlsA evsA hA
      rw [hinv.2.2.2.2.2.2.2.2.2]
      exact hC
    obtain ⟨⟨m2, tls2, blocks2⟩, h2⟩ := ih (epoch + 1) mA tlsA hcapA
    refine ⟨(m2, tls2,
      (evsA ++ [Event.checkpoint order (epoch + 1) (some mA.memory)]) :: blocks2), ?_⟩
    simp only [trainEpochsAux]
    rw [hep]
    dsimp only
    rw [h2]

/-- C1: with replay period 180, step i (1-based) trains on a memory sample
exactly when i mod 180 == 0; over a completed epoch of M stream batches
there are exactly floor(M/180) replay draws and one loss request per batch
(hence M - floor(M/180) live-trained steps), and for M = 360 the replay
steps are exactly the 1-based indices 180 and 360. -/
theorem claim_C1_replay_periodicity (cfg : TrainConfig) (bs : List Batch)
    (m : ReplayMemory) (s : EpochStats) (tls : List Rat)
    (m' : ReplayMemory) (s' : EpochStats) (tls' : List Rat) (evs : List Event)
    (h : runEpochAux cfg 0 bs m s tls = Except.ok (m', s', tls', evs)) :
    countSampleEvents evs = bs.length / REPLAY_FREQ ∧
    countClassifyEvents evs = bs.length ∧
    countClassifyEvents evs - countSampleEvents evs
      = bs.length - bs.length / REPLAY_FREQ ∧
    (((List.range 360).filter (fun i => (i + 1) % REPLAY_FREQ == 0)).map (fun i => i + 1))
      = [180, 360] := by
  have hinv := runEpochAux_ok_inv cfg bs 0 m s tls m' s' tls' evs h
  refine ⟨?_, hinv.2.1, ?_, by decide⟩
  · rw [hinv.1, replayCountFrom_zero_div]
  · rw [hinv.2.1, hinv.1, replayCountFrom_zero_div]

/-- C6: a completed epoch applies exactly one optimizer update per stream
batch, and each step's trace is the block push, (optional replay draw),
zero_grad, classify on the chosen training batch, backward, optimizer
step — in that order. -/
theorem claim_C6_one_update_per_batch (cfg : TrainConfig) (bs : List Batch)
    (m : ReplayMemory) (s : EpochStats) (tls : List Rat)
    (m' : ReplayMemory) (s' : EpochStats) (tls' : List Rat) (evs : List Event)
    (h : runEpochAux cfg 0 bs m s tls = Except.ok (m', s', tls', evs)) :
    countOptStepEvents evs = bs.length ∧ stepBlocksOK evs = true := by
  have hinv := runEpochAux_ok_inv cfg bs 0 m s tls m' s' tls' evs h
  exact ⟨hinv.2.2.1, hinv.2.2.2.2.2.1⟩

/-- C3 (amended): over a completed epoch the cumulative example count
accumulated by the trainer equals the sum, over the stream's steps, of the
live batch size on live-trained steps and of the replay sample size 64 on
replay-trained steps — memory-sampled batches do contribute to the count. -/
theorem claim_C3_example_count (cfg : TrainConfig) (bs : List Batch)
    (m : ReplayMemory) (s : EpochStats) (tls : List Rat)
    (m' : ReplayMemory) (s' : EpochStats) (tls' : List Rat) (evs : List Event)
    (h : runEpochAux cfg 0 bs m s tls = Except.ok (m', s', tls', evs)) :
    s'.nbTrExamples = s.nbTrExamples + liveReplayExamples 0 bs := by
  have hinv := runEpochAux_ok_inv cfg bs 0 m s tls m' s' tls' evs h
  exact hinv.2.2.2.2.2.2.2.2.1

/-- C2 (amended): over a completed epoch every stream batch is pushed into
memory (in order), every replay draw is immediately preceded by the push of
that step's live batch, and as long as the total number of pushed examples
stays within capacity (no reservoir eviction yet) the live batch is still
present in the memory contents sampled from. -/
theorem claim_C2_push_before_sample (cfg : TrainConfig) (bs : List Batch)
    (m : ReplayMemory) (s : EpochStats) (tls : List Rat)
    (m' : ReplayMemory) (s' : EpochStats) (tls' : List Rat) (evs : List Event)
    (h : runEpochAux cfg 0 bs m s tls = Except.ok (m', s', tls', evs))
    (hlen : m.memory.length ≤ m.seen)
    (hbound : m.seen + (bs.map List.length).sum ≤ m.capacity) :
    evs.filterMap Event.pushedBatch = bs ∧
    sampleAfterPushOK evs = true ∧
    coverageOK evs = true := by
  have hinv := runEpochAux_ok_inv cfg bs 0 m s tls m' s' tls' evs h
  exact ⟨hinv.2.2.2.2.1, hinv.2.2.2.2.2.2.1,
    runEpochAux_coverage cfg bs 0 m s tls m' s' tls' evs h hlen hbound⟩

/-- True exactly when a run finished without the empty-memory error. -/
def isOkRun {α : Type} : Except TrainError α → Bool
  | Except.ok _ => true
  | Except.error _ => false

/-- C4: a train run over nonempty batches with positive memory capacity
never invokes memory.sample on an empty memory — the push at line 85
precedes the modulo check, so the whole run completes without the
empty-memory error. -/
theorem claim_C4_no_empty_sample (cfg : TrainConfig) (order epochs : Nat)
    (bs : List Batch) (m0 : ReplayMemory)
    (hC : 1 ≤ m0.capacity) (hb : ∀ b ∈ bs, b ≠ []) :
    isOkRun (train cfg order epochs bs m0) = true := by
  obtain ⟨⟨m', tls', blocks⟩, hr⟩ := trainEpochsAux_ok_exists cfg order bs hb epochs 0 m0 [] hC
  unfold train
  rw [hr]
  rfl

/-- C8: every completed train run writes exactly one checkpoint per epoch:
the last event of epoch block e is the checkpoint keyed by (order, e+1)
carrying the memory snapshot, with no checkpoint before it in the block
(hence after that epoch's final optimizer step). -/
theorem claim_C8_checkpoint_per_epoch (cfg : TrainConfig) (order epochs : Nat)
    (bs : List Batch) (m0 : ReplayMemory) (blocks : List (List Event))
    (r : Except PyError Unit)
    (h : train cfg order epochs bs m0 = Except.ok (blocks, r)) :
    blocks.length = epochs ∧ blocksOKFrom order 0 blocks = true := by
  unfold train at h
  cases hA : trainEpochsAux cfg order bs 0 epochs m0 [] with
  | error e => rw [hA] at h; cases h
  | ok val =>
    obtain ⟨m', tls', blocks'⟩ := val
    rw [hA] at h
    simp only [Except.ok.injEq, Prod.mk.injEq] at h
    obtain ⟨hb, _⟩ := h
    subst hb
    have hinv := trainEpochsAux_ok_inv cfg order bs epochs 0 m0 [] m' tls' blocks' hA
    exact ⟨hinv.1, hinv.2.1⟩

/-- C9: every train run that completes its epochs ends by calling
save_trainloss with a single positional argument, which leaves the required
order parameter unbound and raises a TypeError — after all per-epoch
checkpoints were produced. -/
theorem claim_C9_trainloss_type_error (cfg : TrainConfig) (order epochs : Nat)
    (bs : List Batch) (m0 : ReplayMemory) (blocks : List (List Event))
    (r : Except PyError Unit)
    (h : train cfg order epochs bs m0 = Except.ok (blocks, r)) :
    r = Except.error PyError.typeError ∧ blocks.length = epochs := by
  unfold train at h
  cases hA : trainEpochsAux cfg order bs 0 epochs m0 [] with
  | error e => rw [hA] at h; cases h
  | ok val =>
    obtain ⟨m', tls', blocks'⟩ := val
    rw [hA] at h
    simp only [Except.ok.injEq, Prod.mk.injEq] at h
    obtain ⟨hb, hr⟩ := h
    subst hb
    have hinv := trainEpochsAux_ok_inv cfg order bs epochs 0 m0 [] m' tls' blocks' hA
    exact ⟨hr.symm, hinv.1⟩

/-- Concrete witness data: a single-example batch with token 0. -/
def e0 : Example := { content := [0], attnMask := [1], label := 0 }

/-- Concrete witness data: a single-example batch with token 1. -/
def e1 : Example := { content := [1], attnMask := [1], label := 1 }

/-- Concrete witness collaborators: the reservoir coin always drops once at
capacity, sampling always draws slot 0, the model reports loss 0. -/
def wCfg : TrainConfig :=
  { orc := fun _ => ResDecision.drop, pick := fun _ _ => 0, lossOf := fun _ => 0 }

/-- Concrete witness stream: two single-example batches. -/
def wBatches : List Batch := [[e0], [e1]]

/-- Concrete witness memory of capacity 100. -/
def wMem : ReplayMemory := ReplayMemory.empty 100

/-- Zeroed tracking variables at epoch start. -/
def wStats0 : EpochStats := { trLoss := 0, nbTrExamples := 0, nbTrSteps := 0 }

/-- The memory after the witness epoch. -/
def wMemOut : ReplayMemory := { memory := [e0, e1], capacity := 100, seen := 2 }

/-- The tracking variables after the witness epoch (the loss sum is kept in
the unevaluated form the fold produces). -/
def wStatsOut : EpochStats := { trLoss := 0 + 0 + 0, nbTrExamples := 2, nbTrSteps := 2 }

/-- The train_loss_set after the witness epoch. -/
def wTlsOut : List Rat := [0, 0]

/-- The trace of the witness epoch: two live-trained steps. -/
def wEvsOut : List Event :=
  [Event.push [e0], Event.zeroGrad, Event.classify [e0], Event.backward, Event.optStep,
   Event.push [e1], Event.zeroGrad, Event.classify [e1], Event.backward, Event.optStep]

/-- Witness for C1: the periodicity theorem applied to the concrete 2-batch
run (no replay step among 2 batches: floor(2/180) = 0). -/
theorem claim_C1_replay_periodicity_witness :
    (runEpochAux wCfg 0 wBatches wMem wStats0 []
        = Except.ok (wMemOut, wStatsOut, wTlsOut, wEvsOut)) ∧
    (countSampleEvents wEvsOut = wBatches.length / REPLAY_FREQ ∧
     countClassifyEvents wEvsOut = wBatches.length ∧
     countClassifyEvents wEvsOut - countSampleEvents wEvsOut
       = wBatches.length - wBatches.length / REPLAY_FREQ ∧
     (((List.range 360).filter (fun i => (i + 1) % REPLAY_FREQ == 0)).map (fun i => i + 1))
       = [180, 360]) :=
  ⟨by rfl,
   claim_C1_replay_periodicity wCfg wBatches wMem wStats0 [] wMemOut wStatsOut wTlsOut wEvsOut
     (by rfl)⟩

/-- Witness for C6: one optimizer update per batch on the concrete run. -/
theorem claim_C6_one_update_per_batch_witness :
    (runEpochAux wCfg 0 wBatches wMem wStats0 []
        = Except.ok (wMemOut, wStatsOut, wTlsOut, wEvsOut)) ∧
    (countOptStepEvents wEvsOut = wBatches.length ∧ stepBlocksOK wEvsOut = true) :=
  ⟨by rfl,
   claim_C6_one_update_per_batch wCfg wBatches wMem wStats0 [] wMemOut wStatsOut wTlsOut wEvsOut
     (by rfl)⟩

/-- Witness for C3 (amended): the example-count formula on the concrete
run. -/
theorem claim_C3_example_count_witness :
    (runEpochAux wCfg 0 wBatches wMem wStats0 []
        = Except.ok (wMemOut, wStatsOut, wTlsOut, wEvsOut)) ∧
    wStatsOut.nbTrExamples = wStats0.nbTrExamples + liveReplayExamples 0 wBatches :=
  ⟨by rfl,
   claim_C3_example_count wCfg wBatches wMem wStats0 [] wMemOut wStatsOut wTlsOut wEvsOut
     (by rfl)⟩

/-- Witness for C2 (amended): pushes, ordering and coverage on the concrete
run, whose two examples stay within capacity 100. -/
theorem claim_C2_push_before_sample_witness :
    (runEpochAux wCfg 0 wBatches wMem wStats0 []
        = Except.ok (wMemOut, wStatsOut, wTlsOut, wEvsOut) ∧
     wMem.memory.length ≤ wMem.seen ∧
     wMem.seen + (wBatches.map List.length).sum ≤ wMem.capacity) ∧
    (wEvsOut.filterMap Event.pushedBatch = wBatches ∧
     sampleAfterPushOK wEvsOut = true ∧
     coverageOK wEvsOut = true) :=
  ⟨⟨by rfl, by decide, by decide⟩,
   claim_C2_push_before_sample wCfg wBatches wMem wStats0 [] wMemOut wStatsOut wTlsOut wEvsOut
     (by rfl) (by decide) (by decide)⟩

/-- Witness for C4: a whole train run on the concrete data completes. -/
theorem claim_C4_no_empty_sample_witness :
    (1 ≤ wMem.capacity ∧ (∀ b ∈ wBatches, b ≠ [])) ∧
    isOkRun (train wCfg 1 1 wBatches wMem) = true :=
  ⟨⟨by decide, by decide⟩,
   claim_C4_no_empty_sample wCfg 1 1 wBatches wMem (by decide) (by decide)⟩

/-- The blocks of the concrete 1-epoch train run with order 7. -/
def wTrainBlocks : List (List Event) :=
  [[Event.push [e0], Event.zeroGrad, Event.classify [e0], Event.backward, Event.optStep,
    Event.checkpoint 7 1 (some [e0])]]

/-- Witness for C8: the checkpoint-per-epoch property on the concrete run. -/
theorem claim_C8_checkpoint_per_epoch_witness :
    (train wCfg 7 1 [[e0]] wMem = Except.ok (wTrainBlocks, Except.error PyError.typeError)) ∧
    (wTrainBlocks.length = 1 ∧ blocksOKFrom 7 0 wTrainBlocks = true) :=
  ⟨by rfl,
   claim_C8_checkpoint_per_epoch wCfg 7 1 [[e0]] wMem wTrainBlocks
     (Except.error PyError.typeError) (by rfl)⟩

/-- The blocks of the concrete 1-epoch train run with order 3. -/
def wTrainBlocks3 : List (List Event) :=
  [[Event.push [e0], Event.zeroGrad, Event.classify [e0], Event.backward, Event.optStep,
    Event.checkpoint 3 1 (some [e0])]]

/-- Witness for C9: the final save_trainloss call fails with a TypeError on
the concrete run while its checkpoint block is intact. -/
theorem claim_C9_trainloss_type_error_witness :
    (train wCfg 3 1 [[e0]] wMem = Except.ok (wTrainBlocks3, Except.error PyError.typeError)) ∧
    ((Except.error PyError.typeError : Except PyError Unit) = Except.error PyError.typeError ∧
     wTrainBlocks3.length = 1) :=
  ⟨by rfl,
   claim_C9_trainloss_type_error wCfg 3 1 [[e0]] wMem wTrainBlocks3
     (Except.error PyError.typeError) (by rfl)⟩

/-- The 180-batch stream of the counterexample run: distinct single-example
batches, enough to reach the first replay trigger at step 180. -/
def cexBatches : List Batch :=
  (List.range 180).map (fun i => [{ content := [i], attnMask := [1], label := 0 }])

/-- The counterexample memory: capacity 1, so reservoir eviction decisions
start from the second pushed example. -/
def cexMem : ReplayMemory := ReplayMemory.empty 1

/-- The counterexample run: one full epoch over the 180 batches with the
always-drop reservoir coin (a possible outcome of the C/N coin). -/
def cexRun : Except TrainError (ReplayMemory × EpochStats × List Rat × List Event) :=
  runEpochAux wCfg 0 cexBatches cexMem wStats0 []

/-- nb_tr_examples of a completed run. -/
def okNbTrExamples :
    Except TrainError (ReplayMemory × EpochStats × List Rat × List Event) → Option Nat
  | Except.ok (_, s, _, _) => some s.nbTrExamples
  | Except.error _ => none

/-- The trace of a completed run. -/
def okEvents :
    Except TrainError (ReplayMemory × EpochStats × List Rat × List Event) → Option (List Event)
  | Except.ok (_, _, _, evs) => some evs
  | Except.error _ => none

/-- Counterexample to C3 as stated: over the concrete 180-batch epoch of
single-example batches (batch size 1), 179 steps are live-trained and one is
replay-trained, yet nb_tr_examples ends at 243 = 179 + 64, not at
179 * 1 — the memory-sampled batch of the replay step does contribute its 64
examples to the count. -/
theorem claim_C3_example_count_counterexample :
    okNbTrExamples cexRun = some 243 ∧
    (okEvents cexRun).map countSampleEvents = some 1 ∧
    (okEvents cexRun).map countClassifyEvents = some 180 ∧
    cexBatches.all (fun b => b.length == 1) = true ∧
    243 ≠ (180 - 1) * 1 :=
  ⟨by rfl, by rfl, by rfl, by rfl, by decide⟩

/-- Counterexample to C2 as stated: in the concrete 180-batch run with
capacity 1 and the always-drop reservoir coin, every batch is pushed and
every replay draw directly follows its push, yet at the replay step the
pushed live batch is no longer present in the memory contents sampled from
(the reservoir dropped it), so the pushed-therefore-present implication
fails. -/
theorem claim_C2_coverage_counterexample :
    (okEvents cexRun).map coverageOK = some false ∧
    (okEvents cexRun).map (fun evs => evs.filterMap Event.pushedBatch == cexBatches)
      = some true ∧
    (okEvents cexRun).map sampleAfterPushOK = some true :=
  ⟨by rfl, by rfl, by rfl⟩
